import Mathlib

/-!
Verification of the vis2attr response-parsing and confidence-decision core.

This file is a shallow embedding of the parsing/decision subsystem of the
vis2attr repository:

* `src/vis2attr/parse/base.py` — `_extract_value`, `_extract_confidence`,
  `_normalize_confidence`;
* `src/vis2attr/parse/json_parser.py` — `JSONParser.can_parse`,
  `JSONParser.parse`, `_is_pure_json`, `_has_json_in_markdown`,
  `_extract_json`, `_clean_json_content`, `_convert_to_attributes`;
* `src/vis2attr/pipeline/service.py` — `Pipeline._make_decision`;
* `src/vis2attr/core/config.py` — `Config.get_threshold`.

Modelling conventions:

* Python floats are embedded as exact rationals (`ℚ`); all the arithmetic
  the claims mention (clamping, arithmetic means, threshold comparisons)
  is exact at the rational level.
* Python dicts with string keys are embedded as ordered association lists
  `List (String × α)` with first-match lookup; Python dicts have unique
  keys, which theorems assume where it matters (as `List.Nodup`
  hypotheses on the key lists).
* Parsed JSON values are the inductive type `Json`.  `json.loads` (an
  external library call) is kept abstract: string-processing functions
  take a `loads : String → Option Json` parameter, and the concrete
  executable parser `jsonLoads` defined below instantiates it on
  concrete inputs.
* Exceptions are embedded as `Option`/sum results: `none` from
  `extract_json` models `ParseError("No valid JSON found in response")`.
* `Attributes.lineage` (audit metadata copied verbatim from the raw
  response) and the `VLMRaw` metadata fields feeding it are not modelled;
  no claim mentions them.  Of the three `JSONParser` config options only
  `extract_from_markdown` is ever read after `__init__`, so it is passed
  as a plain `Bool` parameter (its default is `true`).
-/

namespace Vis2Attr

/-- Parsed JSON values, as returned by `json.loads`.  Python JSON numbers
(ints and floats) are collapsed into one exact-rational constructor. -/
inductive Json where
  | null : Json
  | bool : Bool → Json
  | num : ℚ → Json
  | str : String → Json
  | arr : List Json → Json
  | obj : List (String × Json) → Json

/-- First-match lookup in an ordered association list; embeds Python dict
indexing `d[k]` / membership `k in d` for unique-key dicts. -/
def alookup {α : Type} : List (String × α) → String → Option α
  | [], _ => none
  | (k2, v) :: rest, k => if k2 = k then some v else alookup rest k

/-- Best-effort rendering of Python `str()` applied to a `json.loads`
value.  `str` values are returned verbatim and the `True`/`False`/`None`
spellings are Python's; the decimal rendering of non-integer numbers and
the quoting of strings nested inside containers are approximated (no
claim depends on them). -/
def pyStr : Json → String
  | .null => "None"
  | .bool true => "True"
  | .bool false => "False"
  | .num q => if q.den = 1 then toString q.num else toString q
  | .str s => s
  | .arr xs => "[" ++ String.intercalate ", " (xs.attach.map (fun x => pyStr x.1)) ++ "]"
  | .obj kvs =>
      "\x7b" ++
        String.intercalate ", "
          (kvs.attach.map (fun kv => kv.1.1 ++ ": " ++ pyStr kv.1.2)) ++ "\x7d"
decreasing_by
· have h := List.sizeOf_lt_of_mem x.2
  simp only [Json.arr.sizeOf_spec]
  omega
· have h := List.sizeOf_lt_of_mem kv.2
  have h2 : sizeOf kv.1.2 < sizeOf kv.1 := by
    obtain ⟨⟨k, v⟩, hm⟩ := kv
    simp only [Prod.mk.sizeOf_spec]
    omega
  simp only [Json.obj.sizeOf_spec]
  omega

/-- Embeds `Parser._normalize_confidence` (`src/vis2attr/parse/base.py`):
the clamp `max(0.0, min(1.0, float(confidence)))`. -/
def normalize_confidence (confidence : ℚ) : ℚ := max 0 (min 1 confidence)

/-- Embeds `Parser._extract_value` (`src/vis2attr/parse/base.py`): if the field
data is a dict containing a `value` key, return that entry, else return
the field data itself. -/
def extract_value (field_data : Json) : Json :=
  match field_data with
  | .obj kvs =>
      match alookup kvs "value" with
      | some v => v
      | none => .obj kvs
  | fd => fd

/-- Embeds `Parser._extract_confidence` (`src/vis2attr/parse/base.py`) with
its `default` parameter at `0.0`, the value every caller uses: if the
field data is a dict whose `confidence` entry is numeric, return it as a
float, else the default.  Note that the Python isinstance test against
int or float also accepts booleans (`bool` subclasses `int`), hence the
`.bool` case. -/
def extract_confidence (field_data : Json) : ℚ :=
  match field_data with
  | .obj kvs =>
      match alookup kvs "confidence" with
      | some (.num q) => q
      | some (.bool b) => if b then 1 else 0
      | _ => 0
  | _ => 0

/-- The scalar-branch guard in `_convert_to_attributes`: the field schema
is a dict containing a `value` key. -/
def isScalarSchema (field_schema : Json) : Bool :=
  match field_schema with
  | .obj kvs => (alookup kvs "value").isSome
  | _ => false

/-- The list-branch guard in `_convert_to_attributes`:
`isinstance(field_schema, list) and field_schema` (truthy = non-empty). -/
def isListSchema (field_schema : Json) : Bool :=
  match field_schema with
  | .arr (_ :: _) => true
  | _ => false

/-- One iteration of the list-field loop in `_convert_to_attributes`
(`src/vis2attr/parse/json_parser.py` lines 246-259): a dict element maps
to a dict with `name` set to `_extract_value` of its `name` entry
(defaulting to the empty string) and `confidence` set to its clamped
extracted confidence; a bare element maps to a dict with `name` set to
`str(item)` and `confidence` set to `0.5`. -/
def processItem (item : Json) : Json :=
  match item with
  | .obj kvs =>
      .obj [("name", extract_value ((alookup kvs "name").getD (.str ""))),
            ("confidence", .num (normalize_confidence (extract_confidence (.obj kvs))))]
  | item => .obj [("name", .str (pyStr item)), ("confidence", .num (1 / 2))]

/-- The confidence stored in a processed list item, read back the way the
code indexes the processed dict at `confidence` when averaging. -/
def itemConfValue (p : Json) : ℚ :=
  match p with
  | .obj kvs =>
      match alookup kvs "confidence" with
      | some (.num q) => q
      | _ => 0
  | _ => 0

/-- The arithmetic mean of the per-item clamped confidences of a list
field (`0` for the empty list) — the value the claims say a list field
stores. -/
def listMeanConf (items : List Json) : ℚ :=
  match items with
  | [] => 0
  | _ =>
      (items.map (fun it => itemConfValue (processItem it))).sum / (items.length : ℚ)

/-- The per-field body of the schema loop of `_convert_to_attributes`
(`src/vis2attr/parse/json_parser.py` lines 229-274).  Returns `none` when
the schema field is absent from the parsed data (the field is silently
omitted), else the `(value, confidence)` pair stored for it. -/
def processField (data : List (String × Json)) (field_name : String)
    (field_schema : Json) : Option (Json × ℚ) :=
  match alookup data field_name with
  | none => none
  | some field_data =>
    if isScalarSchema field_schema then
      some (extract_value field_data, normalize_confidence (extract_confidence field_data))
    else if isListSchema field_schema then
      match field_data with
      | .arr items =>
          let processed_items := items.map processItem
          match processed_items with
          | [] => some (.arr [], 0)
          | _ =>
              let avg_confidence :=
                (processed_items.map itemConfValue).sum / (processed_items.length : ℚ)
              some (.arr processed_items, normalize_confidence avg_confidence)
      | _ => some (.arr [], 0)
    else
      some (field_data, 1 / 2)

/-- The schema loop of `_convert_to_attributes`: builds the
`attributes_data` and `confidences` dicts in schema order. -/
def convertFields (data : List (String × Json)) :
    List (String × Json) → List (String × Json) × List (String × ℚ)
  | [] => ([], [])
  | (field_name, field_schema) :: rest =>
      let tail := convertFields data rest
      match processField data field_name field_schema with
      | none => tail
      | some (v, c) => ((field_name, v) :: tail.1, (field_name, c) :: tail.2)

/-- Embeds the aggregate of `_convert_to_attributes`
(`src/vis2attr/parse/json_parser.py` line 281): the sum of the
confidence values divided by their number, and `0.0` for an empty map. -/
def aggregate_confidence (confidences : List (String × ℚ)) : ℚ :=
  match confidences with
  | [] => 0
  | _ => (confidences.map Prod.snd).sum / (confidences.length : ℚ)

/-- The quality-tag assignment of `_convert_to_attributes` (lines
282-287); the Python `set` receives exactly one `add`, so it is embedded
as a singleton list. -/
def qualityTags (avg_confidence : ℚ) : List String :=
  if avg_confidence > 4 / 5 then ["high_confidence"]
  else if avg_confidence > 1 / 2 then ["medium_confidence"]
  else ["low_confidence"]

/-- The parsed, canonical output record (`Attributes` in
`src/vis2attr/core/schemas.py`), minus the `lineage` audit map. -/
structure Attributes where
  data : List (String × Json)
  confidences : List (String × ℚ)
  tags : List String
  notes : String

/-- Embeds `JSONParser._convert_to_attributes`
(`src/vis2attr/parse/json_parser.py` lines 212-304) on already-parsed
JSON object data. -/
def convert_to_attributes (data : List (String × Json))
    (schema : List (String × Json)) : Attributes :=
  let maps := convertFields data schema
  let notes :=
    match alookup data "notes" with
    | some v => pyStr v
    | none => ""
  ⟨maps.1, maps.2, qualityTags (aggregate_confidence maps.2), notes⟩

/-- Modelled from the spec's tagging clause: the aggregate the claim
describes, the mean over the record's confidence entries with freeform
fields (schema entries that are strings, e.g. `notes`) excluded, `0`
when none remain.  Used only for comparison against the code's
behaviour. -/
def specAggregateNoFreeform (data schema : List (String × Json)) : ℚ :=
  let kept := (convert_to_attributes data schema).confidences.filter
      (fun p =>
        match alookup schema p.1 with
        | some (.str _) => false
        | _ => true)
  match kept with
  | [] => 0
  | _ => (kept.map Prod.snd).sum / (kept.length : ℚ)

/-- Round a rational to the nearest integer, ties to even — the rounding
Python's fixed-point float formatting performs. -/
def roundHalfEven (q : ℚ) : ℤ :=
  let f : ℤ := q.floor
  let r : ℚ := q - (f : ℚ)
  if r < 1 / 2 then f
  else if 1 / 2 < r then f + 1
  else if f % 2 = 0 then f else f + 1

/-- Embeds Python fixed-point float formatting with three decimal places
(format specifier .3f), at the exact-rational level (the sign of a
negative value that rounds to zero is dropped; no claim exercises that
corner). -/
def format3 (q : ℚ) : String :=
  let n : ℤ := roundHalfEven (q * 1000)
  let a : ℕ := n.natAbs
  let fracStr :=
    (if a % 1000 < 10 then "00" else if a % 1000 < 100 then "0" else "") ++
      toString (a % 1000)
  (if n < 0 then "-" else "") ++ toString (a / 1000) ++ "." ++ fracStr

/-- The per-field rejection reason of `_make_decision`
(`src/vis2attr/pipeline/service.py` line 290). -/
def mkFieldReason (field_name : String) (confidence threshold : ℚ) : String :=
  field_name ++ " confidence " ++ format3 confidence ++ " below threshold " ++
    format3 threshold

/-- The overall rejection reason of `_make_decision`
(`src/vis2attr/pipeline/service.py` line 302). -/
def mkOverallReason (overall_confidence threshold : ℚ) : String :=
  "Overall confidence " ++ format3 overall_confidence ++
    " below default threshold " ++ format3 threshold

/-- The decision record (`Decision` in `src/vis2attr/core/schemas.py`). -/
structure Decision where
  accepted : Bool
  field_flags : List (String × String)
  reasons : List String
  confidence_score : ℚ

/-- Embeds `Config.get_threshold` (`src/vis2attr/core/config.py` lines
101-103): look the field up in the thresholds map, falling back to the
map's `default` entry and then to `DEFAULT_CONFIDENCE_THRESHOLD = 0.75`. -/
def get_threshold (thresholds : List (String × ℚ)) (field_name : String) : ℚ :=
  ((alookup thresholds field_name).getD ((alookup thresholds "default").getD (3 / 4)))

/-- The field loop of `_make_decision`
(`src/vis2attr/pipeline/service.py` lines 281-293), iterating over
`attributes.data` in order and skipping fields without a confidence
entry.  Returns `(field_flags, reasons, overall_confidence_sum,
field_count)`. -/
def decisionFold (confidences : List (String × ℚ)) (thresholds : List (String × ℚ)) :
    List (String × Json) → List (String × String) × List String × ℚ × ℕ
  | [] => ([], [], 0, 0)
  | (field_name, _) :: rest =>
      let tail := decisionFold confidences thresholds rest
      match alookup confidences field_name with
      | none => tail
      | some confidence =>
          let threshold := get_threshold thresholds field_name
          if confidence ≥ threshold then
            ((field_name, "accepted") :: tail.1, tail.2.1, confidence + tail.2.2.1,
              tail.2.2.2 + 1)
          else
            ((field_name, "low_confidence") :: tail.1,
              mkFieldReason field_name confidence threshold :: tail.2.1,
              confidence + tail.2.2.1, tail.2.2.2 + 1)

/-- Embeds `Pipeline._make_decision` (`src/vis2attr/pipeline/service.py`
lines 263-309). -/
def make_decision (attributes : Attributes) (thresholds : List (String × ℚ)) : Decision :=
  let folded := decisionFold attributes.confidences thresholds attributes.data
  let field_count := folded.2.2.2
  let overall_confidence :=
    if field_count > 0 then folded.2.2.1 / (field_count : ℚ) else folded.2.2.1
  let accepted := decide (overall_confidence ≥ get_threshold thresholds "default")
  let reasons :=
    folded.2.1 ++
      (if accepted then []
       else [mkOverallReason overall_confidence (get_threshold thresholds "default")])
  ⟨accepted, folded.1, reasons, overall_confidence⟩

/-- The entries of a data list, in order, that have a confidence entry,
paired with that confidence (the sub-list of fields the `_make_decision`
loop actually processes). -/
def consideredList (confidences : List (String × ℚ)) :
    List (String × Json) → List (String × ℚ)
  | [] => []
  | (field_name, _) :: rest =>
      match alookup confidences field_name with
      | none => consideredList confidences rest
      | some c => (field_name, c) :: consideredList confidences rest

/-- The fields `_make_decision` actually considers: the entries of
`attributes.data`, in order, that have a confidence entry, paired with
that confidence.  Used to state the decision-engine claims. -/
def consideredFields (attributes : Attributes) : List (String × ℚ) :=
  consideredList attributes.confidences attributes.data

/-- The mean over the considered per-field confidences (`0` when none
exist) — the claims' characterisation of `confidence_score`. -/
def meanConsidered (attributes : Attributes) : ℚ :=
  match consideredFields attributes with
  | [] => 0
  | l => (l.map Prod.snd).sum / (l.length : ℚ)

/-- The field-level rejection reasons, in `attributes.data` order: one
reason per considered field whose confidence is below its effective
threshold. -/
def fieldLevelReasons (attributes : Attributes) (thresholds : List (String × ℚ)) :
    List String :=
  (consideredFields attributes).filterMap
    (fun p =>
      if p.2 ≥ get_threshold thresholds p.1 then none
      else some (mkFieldReason p.1 p.2 (get_threshold thresholds p.1)))

/-- The field flags as a function of the considered fields. -/
def expectedFlags (attributes : Attributes) (thresholds : List (String × ℚ)) :
    List (String × String) :=
  (consideredFields attributes).map
    (fun p =>
      (p.1, if p.2 ≥ get_threshold thresholds p.1 then "accepted" else "low_confidence"))

/-- Membership in the Python whitespace class (the one used by strip and
the regex whitespace class, ASCII range). -/
def pyIsSpace (c : Char) : Bool :=
  c = ' ' || c = '\t' || c = '\n' || c = '\r' || c = '\x0b' || c = '\x0c'

/-- Python `str.strip()`. -/
def pyStrip (s : String) : String :=
  String.mk (((s.data.dropWhile pyIsSpace).reverse.dropWhile pyIsSpace).reverse)

/-- Match a literal character sequence at the head of the input,
returning the rest on success. -/
def matchLit : List Char → List Char → Option (List Char)
  | [], l => some l
  | _ :: _, [] => none
  | p :: ps, c :: cs => if c = p then matchLit ps cs else none

/-- True when the literal occurs at the head of the input. -/
def isLitAt (marker l : List Char) : Bool := (matchLit marker l).isSome

def skipPyWs (l : List Char) : List Char := l.dropWhile pyIsSpace

def backtick3 : List Char := ['\x60', '\x60', '\x60']

def jsonLit : List Char := ['j', 's', 'o', 'n']

/-- The lazy body of the fenced-code-block pattern
`(\{.*?\})\s*` followed by three backticks (with `re.DOTALL`): scanning
forward from inside the braces, stop at the first closing brace that is
followed by optional whitespace and the closing fence.  `acc` holds the
reversed capture so far (starting with the opening brace). -/
def mdFindBody : Nat → List Char → List Char → Option (List Char × List Char)
  | 0, _, _ => none
  | _ + 1, _, [] => none
  | fuel + 1, acc, c :: cs =>
      if c = '\x7d' then
        match matchLit backtick3 (skipPyWs cs) with
        | some rest2 => some ((c :: acc).reverse, rest2)
        | none => mdFindBody fuel (c :: acc) cs
      else mdFindBody fuel (c :: acc) cs

/-- One anchored attempt of the markdown pattern
(three backticks, optional `json` tag, whitespace, `(\{.*?\})`,
whitespace, three backticks) at the head of the input.  Returns the
captured group and the rest of the input after the whole match.  When
the `json` tag is present the tagless backtracking alternative can never
match (the next character is `j`, neither whitespace nor a brace), so
consuming the tag when present is faithful to the regex. -/
def mdTryAt (l : List Char) : Option (List Char × List Char) :=
  match matchLit backtick3 l with
  | none => none
  | some r1 =>
      let r2 := match matchLit jsonLit r1 with
                | some rj => rj
                | none => r1
      match skipPyWs r2 with
      | '\x7b' :: cs => mdFindBody (cs.length + 1) ['\x7b'] cs
      | _ => none

/-- Scans for all matches of the fenced-code-block pattern: leftmost
non-overlapping matches, continuing after each match (findall
semantics). -/
def mdScan : Nat → List Char → List (List Char)
  | 0, _ => []
  | _ + 1, [] => []
  | fuel + 1, c :: cs =>
      match mdTryAt (c :: cs) with
      | some (cap, rest) => cap :: mdScan fuel rest
      | none => mdScan fuel cs

/-- The fenced-code-block candidates of a response, in order of
appearance: the findall of the DOTALL pattern made of three backticks, an
optional json tag, whitespace, a lazily-matched parenthesised brace group,
whitespace and three closing backticks
(`src/vis2attr/parse/json_parser.py` lines 103-104 and 132-133). -/
def mdMatches (s : String) : List String :=
  (mdScan (s.data.length + 1) s.data).map String.mk

def isNonBrace (c : Char) : Bool := c ≠ '\x7b' && c ≠ '\x7d'

/-- The tail of one anchored attempt of the brace pattern
`\{[^\{\}]*(?:\{[^\{\}]*\}[^\{\}]*)*\}`: positioned at a brace (or the
end), with `n` characters of the match consumed so far.  Because
`[^\{\}]*` is deterministic, the regex either closes at a `\x7d`,
recurses into exactly one further level at a `\x7b`, or fails. -/
def braceLoop : Nat → List Char → Nat → Option Nat
  | 0, _, _ => none
  | _ + 1, [], _ => none
  | fuel + 1, c :: cs, n =>
      if c = '\x7d' then some (n + 1)
      else if c = '\x7b' then
        let a1 := cs.takeWhile isNonBrace
        match cs.drop a1.length with
        | '\x7d' :: r2 =>
            let a2 := r2.takeWhile isNonBrace
            braceLoop fuel (r2.drop a2.length) (n + 1 + a1.length + 1 + a2.length)
        | _ => none
      else none

/-- One anchored attempt of the brace pattern; returns the length of the
match. -/
def braceTryAt (l : List Char) : Option Nat :=
  match l with
  | '\x7b' :: rest =>
      let a := rest.takeWhile isNonBrace
      braceLoop (l.length + 1) (rest.drop a.length) (1 + a.length)
  | _ => none

/-- Scans for all matches of the brace pattern: leftmost non-overlapping
matches (findall semantics). -/
def braceScan : Nat → List Char → List (List Char)
  | 0, _ => []
  | _ + 1, [] => []
  | fuel + 1, c :: cs =>
      match braceTryAt (c :: cs) with
      | some n => (c :: cs).take n :: braceScan fuel ((c :: cs).drop n)
      | none => braceScan fuel cs

/-- The `\{[^\{\}]*(?:\{[^\{\}]*\}[^\{\}]*)*\}` candidates of a response,
in order of appearance (`src/vis2attr/parse/json_parser.py` lines 140-141
and 154-155; the pattern only reaches one level of nested braces). -/
def braceMatches (s : String) : List String :=
  (braceScan (s.data.length + 1) s.data).map String.mk

/-- The brace-counting loop of `_clean_json_content`
(`src/vis2attr/parse/json_parser.py` lines 180-192): positioned at the
first `\x7b`, scan forward tracking nested depth and return the substring
ending at the matching `\x7d`, or `none` when the braces never close. -/
def depthScan : Nat → List Char → Nat → List Char → Option (List Char)
  | 0, _, _, _ => none
  | _ + 1, [], _, _ => none
  | fuel + 1, c :: cs, depth, acc =>
      if c = '\x7b' then depthScan fuel cs (depth + 1) (c :: acc)
      else if c = '\x7d' then
        if depth = 1 then some (c :: acc).reverse
        else depthScan fuel cs (depth - 1) (c :: acc)
      else depthScan fuel cs depth (c :: acc)

/-- Embeds the MULTILINE regex substitution deleting from a marker to the
end of its line: cut every line at the first occurrence of the marker
(used for the double-slash and hash comment markers). -/
def stripToEol (marker : List Char) : Nat → List Char → List Char
  | 0, l => l
  | _ + 1, [] => []
  | fuel + 1, c :: cs =>
      if isLitAt marker (c :: cs) then
        stripToEol marker fuel ((c :: cs).dropWhile (fun ch => ch ≠ '\n'))
      else c :: stripToEol marker fuel cs

/-- Find the closing `*/` of a block comment, returning the rest of the
input after it. -/
def findCloseAux : Nat → List Char → Option (List Char)
  | 0, _ => none
  | _ + 1, [] => none
  | fuel + 1, c :: cs =>
      if isLitAt ['*', '/'] (c :: cs) then some (cs.drop 1)
      else findCloseAux fuel cs

/-- Embeds the DOTALL regex substitution deleting lazily-matched block
comments: remove every slash-star to star-slash span; an unterminated
opener matches nothing and stays. -/
def stripBlockComments : Nat → List Char → List Char
  | 0, l => l
  | _ + 1, [] => []
  | fuel + 1, c :: cs =>
      if isLitAt ['/', '*'] (c :: cs) then
        match findCloseAux ((cs.drop 1).length + 1) (cs.drop 1) with
        | some rest => stripBlockComments fuel rest
        | none => c :: stripBlockComments fuel cs
      else c :: stripBlockComments fuel cs

/-- Embeds the regex substitution replacing every whitespace run with a
single space. -/
def collapseWs : Nat → List Char → List Char
  | 0, l => l
  | _ + 1, [] => []
  | fuel + 1, c :: cs =>
      if pyIsSpace c then ' ' :: collapseWs fuel (cs.dropWhile pyIsSpace)
      else c :: collapseWs fuel cs

/-- The comment-stripping and whitespace-normalising tail of
`_clean_json_content` (`src/vis2attr/parse/json_parser.py` lines
196-208): strip `//`-to-end-of-line, then `/* ... */`, then
`#`-to-end-of-line comments, collapse whitespace runs, and strip. -/
def commentStripCollapse (l : List Char) : List Char :=
  let l1 := stripToEol ['/', '/'] (l.length + 1) l
  let l2 := stripBlockComments (l1.length + 1) l1
  let l3 := stripToEol ['#'] (l2.length + 1) l2
  let l4 := collapseWs (l3.length + 1) l3
  ((l4.dropWhile pyIsSpace).reverse.dropWhile pyIsSpace).reverse

/-- Embeds `JSONParser._clean_json_content`
(`src/vis2attr/parse/json_parser.py` lines 165-210): take the substring
from the first `\x7b` to its matching `\x7d` (empty result when absent
or unbalanced), then strip comments and collapse whitespace. -/
def clean_json_content (content : String) : String :=
  match content.data.dropWhile (fun c => c ≠ '\x7b') with
  | [] => ""
  | l =>
      match depthScan (l.length + 1) l 0 [] with
      | none => ""
      | some json_str => String.mk (commentStripCollapse json_str)

/-- The type of the external `json.loads` collaborator: `none` models a
raised `json.JSONDecodeError`.  The extraction and dispatch theorems are
parametric in it. -/
def Loads : Type := String → Option Json

/-- Embeds `JSONParser._is_pure_json` (`src/vis2attr/parse/json_parser.py`
lines 78-91): `json.loads` succeeds on the content. -/
def is_pure_json (loads : Loads) (content : String) : Bool :=
  (loads content).isSome

/-- Embeds `JSONParser._has_json_in_markdown`
(`src/vis2attr/parse/json_parser.py` lines 93-110): some fenced-block
candidate parses. -/
def has_json_in_markdown (loads : Loads) (content : String) : Bool :=
  (mdMatches content).any (fun m => is_pure_json loads m)

/-- Embeds `JSONParser.can_parse` (`src/vis2attr/parse/json_parser.py`
lines 29-48): strip the content, accept pure JSON, else (when
`extract_from_markdown` is set, its default) accept a parsing fenced
block. -/
def can_parse (loads : Loads) (extract_from_markdown : Bool)
    (raw_content : String) : Bool :=
  let content := pyStrip raw_content
  if is_pure_json loads content then true
  else if extract_from_markdown && has_json_in_markdown loads content then true
  else false

/-- Embeds `JSONParser._extract_json`
(`src/vis2attr/parse/json_parser.py` lines 112-163); `none` models the
raised no-valid-JSON `ParseError`. -/
def extract_json (loads : Loads) (extract_from_markdown : Bool)
    (raw_content : String) : Option String :=
  let content := pyStrip raw_content
  if is_pure_json loads content then some content
  else
    match (if extract_from_markdown then
             (mdMatches content).find? (fun m => is_pure_json loads m)
           else none) with
    | some m => some m
    | none =>
        match (braceMatches content).find? (fun m => is_pure_json loads m) with
        | some m => some m
        | none =>
            let cleaned := clean_json_content content
            if !(cleaned == "") && is_pure_json loads cleaned then some cleaned
            else
              match (braceMatches content).find?
                  (fun m =>
                    !(clean_json_content m == "") &&
                      is_pure_json loads (clean_json_content m)) with
              | some m => some (clean_json_content m)
              | none => none

/-- Extraction strategy 1 on stripped content: the whole text as JSON. -/
def extractStep1 (loads : Loads) (content : String) : Option String :=
  if is_pure_json loads content then some content else none

/-- Extraction strategy 2 on stripped content: first parsing fenced code
block, when markdown extraction is enabled. -/
def extractStep2 (loads : Loads) (extract_from_markdown : Bool)
    (content : String) : Option String :=
  if extract_from_markdown then
    (mdMatches content).find? (fun m => is_pure_json loads m)
  else none

/-- Extraction strategy 3 on stripped content: first parsing candidate
among the brace-pattern regex matches, taken raw. -/
def extractStep3 (loads : Loads) (content : String) : Option String :=
  (braceMatches content).find? (fun m => is_pure_json loads m)

/-- Extraction strategy 4 on stripped content: `_clean_json_content` of
the whole text (brace-matching scan from the first `\x7b` plus comment
stripping), accepted when non-empty and parsing. -/
def extractStep4 (loads : Loads) (content : String) : Option String :=
  let cleaned := clean_json_content content
  if !(cleaned == "") && is_pure_json loads cleaned then some cleaned else none

/-- Extraction strategy 5 on stripped content: first brace-pattern match
whose cleaned form is non-empty and parses; returns the cleaned form. -/
def extractStep5 (loads : Loads) (content : String) : Option String :=
  ((braceMatches content).find?
      (fun m =>
        !(clean_json_content m == "") &&
          is_pure_json loads (clean_json_content m))).map
    (fun m => clean_json_content m)

/-- The extraction pipeline restated as an explicit first-success
alternation of the five strategies over the stripped content; proved
equal to `extract_json`. -/
def extractStaged (loads : Loads) (extract_from_markdown : Bool)
    (raw_content : String) : Option String :=
  let content := pyStrip raw_content
  extractStep1 loads content <|>
    extractStep2 loads extract_from_markdown content <|>
      extractStep3 loads content <|>
        extractStep4 loads content <|> extractStep5 loads content

/-- The brace-matching scan the spec describes as extraction step 3:
the substring from the first `\x7b` of the text to its matching `\x7d`. -/
def specBraceCandidate (content : String) : Option String :=
  match content.data.dropWhile (fun c => c ≠ '\x7b') with
  | [] => none
  | l => (depthScan (l.length + 1) l 0 []).map String.mk

/-- Modelled from the spec: the extraction algorithm exactly as §4.1 of
the spec words it (used only for comparison against the code's
`extract_json`).  Steps 1, 2, 5 and 6 coincide with the code; step 3 is
the brace-matching scan from the first `\x7b` taken raw, and step 4
comment-strips and whitespace-collapses that same candidate and retries. -/
def extractSpecClaim (loads : Loads) (extract_from_markdown : Bool)
    (raw_content : String) : Option String :=
  let content := pyStrip raw_content
  (if is_pure_json loads content then some content else none) <|>
  (if extract_from_markdown then
     (mdMatches content).find? (fun m => is_pure_json loads m)
   else none) <|>
  ((specBraceCandidate content).bind
    (fun cand => if is_pure_json loads cand then some cand else none)) <|>
  ((specBraceCandidate content).bind
    (fun cand =>
      let cl := String.mk (commentStripCollapse cand.data)
      if is_pure_json loads cl then some cl else none)) <|>
  (((braceMatches content).find?
      (fun m =>
        !(clean_json_content m == "") &&
          is_pure_json loads (clean_json_content m))).map
    (fun m => clean_json_content m))

/-- Outcome of `JSONParser.parse` (`src/vis2attr/parse/json_parser.py`
lines 50-76), with the two error handlers kept apart:
`extractionFailure` is the `ParseError` raised by `_extract_json`
(re-wrapped by the generic handler), `decodeFailure` is the
`json.JSONDecodeError` handler at line 73.  A successfully decoded
non-object top level would duck-type through `_convert_to_attributes`;
it is kept as its own case (`nonObjectData`), which no claim exercises. -/
inductive ParseOutcome where
  | ok : Attributes → ParseOutcome
  | extractionFailure : ParseOutcome
  | decodeFailure : ParseOutcome
  | nonObjectData : ParseOutcome

/-- Embeds `JSONParser.parse`: extract, decode, convert. -/
def parse (loads : Loads) (extract_from_markdown : Bool) (raw_content : String)
    (schema : List (String × Json)) : ParseOutcome :=
  match extract_json loads extract_from_markdown raw_content with
  | none => .extractionFailure
  | some json_data =>
      match loads json_data with
      | none => .decodeFailure
      | some (.obj data) => .ok (convert_to_attributes data schema)
      | some _ => .nonObjectData

/-- JSON whitespace (`json.loads` skips space, tab, newline, carriage
return between tokens). -/
def skipJsonWs (l : List Char) : List Char :=
  l.dropWhile (fun c => c = ' ' || c = '\t' || c = '\n' || c = '\r')

/-- Value of a digit run. -/
def digitsVal (l : List Char) : Nat :=
  l.foldl (fun n c => n * 10 + (c.toNat - 48)) 0

/-- Body of a JSON string literal (after the opening quote), with the
common escapes; `\uXXXX` escapes are not modelled (no concrete input
below uses them). -/
def parseStringBody : Nat → List Char → List Char → Option (String × List Char)
  | 0, _, _ => none
  | _ + 1, [], _ => none
  | fuel + 1, c :: cs, acc =>
      if c = '"' then some (String.mk acc.reverse, cs)
      else if c = '\\' then
        match cs with
        | [] => none
        | e :: cs2 =>
            let esc : Option Char :=
              if e = '"' then some '"'
              else if e = '\\' then some '\\'
              else if e = '/' then some '/'
              else if e = 'b' then some '\x08'
              else if e = 'f' then some '\x0c'
              else if e = 'n' then some '\n'
              else if e = 'r' then some '\r'
              else if e = 't' then some '\t'
              else none
            match esc with
            | some ch => parseStringBody fuel cs2 (ch :: acc)
            | none => none
      else parseStringBody fuel cs (c :: acc)

/-- Fractional part of a JSON number (empty when there is no dot). -/
def parseFrac (l : List Char) : Option (ℚ × List Char) :=
  match l with
  | '.' :: rest =>
      let fs := rest.takeWhile Char.isDigit
      match fs with
      | [] => none
      | _ => some ((digitsVal fs : ℚ) / ((10 : ℚ) ^ fs.length), rest.drop fs.length)
  | _ => some (0, l)

/-- Exponent part of a JSON number, as a multiplier (1 when absent). -/
def parseExp (l : List Char) : Option (ℚ × List Char) :=
  match l with
  | c :: rest =>
      if c = 'e' || c = 'E' then
        let signed : Bool × List Char :=
          match rest with
          | '+' :: r => (false, r)
          | '-' :: r => (true, r)
          | r => (false, r)
        let es := signed.2.takeWhile Char.isDigit
        match es with
        | [] => none
        | _ =>
            some ((if signed.1 then 1 / ((10 : ℚ) ^ digitsVal es)
                   else (10 : ℚ) ^ digitsVal es),
                  signed.2.drop es.length)
      else some (1, l)
  | [] => some (1, [])

/-- A JSON number (integer, fraction, exponent). -/
def parseNumber (l : List Char) : Option (ℚ × List Char) :=
  let signed : Bool × List Char :=
    match l with
    | '-' :: rest => (true, rest)
    | _ => (false, l)
  let ds := signed.2.takeWhile Char.isDigit
  match ds with
  | [] => none
  | _ =>
      match parseFrac (signed.2.drop ds.length) with
      | none => none
      | some (fr, l2) =>
          match parseExp l2 with
          | none => none
          | some (mult, l3) =>
              let mag := ((digitsVal ds : ℚ) + fr) * mult
              some ((if signed.1 then -mag else mag), l3)

mutual

/-- Recursive-descent JSON value parser (fuel-indexed). -/
def parseJsonVal : Nat → List Char → Option (Json × List Char)
  | 0, _ => none
  | fuel + 1, l =>
      match skipJsonWs l with
      | [] => none
      | c :: cs =>
          if c = 'n' then (matchLit ['u', 'l', 'l'] cs).map (fun r => (Json.null, r))
          else if c = 't' then (matchLit ['r', 'u', 'e'] cs).map (fun r => (Json.bool true, r))
          else if c = 'f' then (matchLit ['a', 'l', 's', 'e'] cs).map (fun r => (Json.bool false, r))
          else if c = '"' then
            (parseStringBody (cs.length + 1) cs []).map (fun p => (Json.str p.1, p.2))
          else if c = '\x7b' then
            match skipJsonWs cs with
            | '\x7d' :: rest => some (Json.obj [], rest)
            | l2 => (parseMembers fuel l2).map (fun p => (Json.obj p.1, p.2))
          else if c = '[' then
            match skipJsonWs cs with
            | ']' :: rest => some (Json.arr [], rest)
            | l2 => (parseItems fuel l2).map (fun p => (Json.arr p.1, p.2))
          else (parseNumber (c :: cs)).map (fun p => (Json.num p.1, p.2))

/-- Members of a JSON object (after the opening brace, non-empty).
Members are kept in textual order; Python keeps the last value of a
duplicated key, which no concrete input below exercises. -/
def parseMembers : Nat → List Char → Option (List (String × Json) × List Char)
  | 0, _ => none
  | fuel + 1, l =>
      match skipJsonWs l with
      | '"' :: cs =>
          match parseStringBody (cs.length + 1) cs [] with
          | none => none
          | some (key, r1) =>
              match skipJsonWs r1 with
              | ':' :: r2 =>
                  match parseJsonVal fuel r2 with
                  | none => none
                  | some (v, r3) =>
                      match skipJsonWs r3 with
                      | ',' :: r4 =>
                          (parseMembers fuel r4).map (fun p => ((key, v) :: p.1, p.2))
                      | '\x7d' :: r4 => some ([(key, v)], r4)
                      | _ => none
              | _ => none
      | _ => none

/-- Items of a JSON array (after the opening bracket, non-empty). -/
def parseItems : Nat → List Char → Option (List Json × List Char)
  | 0, _ => none
  | fuel + 1, l =>
      match parseJsonVal fuel l with
      | none => none
      | some (v, r1) =>
          match skipJsonWs r1 with
          | ',' :: r2 => (parseItems fuel r2).map (fun p => (v :: p.1, p.2))
          | ']' :: r2 => some ([v], r2)
          | _ => none

end

/-- A concrete executable model of Python's `json.loads`, used to
instantiate the abstract `loads` parameter on concrete inputs (the
extraction theorems themselves are parametric in `loads`).  It covers
the JSON fragment those inputs use; `NaN`/`Infinity` and `\uXXXX`
escapes are not modelled. -/
def jsonLoads : Loads := fun s =>
  match parseJsonVal (s.length * 2 + 16) s.data with
  | some (v, rest) => if skipJsonWs rest = [] then some v else none
  | none => none

/-! ### Helper lemmas -/

theorem normalize_confidence_nonneg (c : ℚ) : 0 ≤ normalize_confidence c :=
  le_max_left 0 _

theorem normalize_confidence_le_one (c : ℚ) : normalize_confidence c ≤ 1 :=
  max_le (by norm_num) (min_le_left 1 c)

theorem normalize_confidence_of_mem_unit (c : ℚ) (h0 : 0 ≤ c) (h1 : c ≤ 1) :
    normalize_confidence c = c := by
  unfold normalize_confidence
  rw [min_eq_right h1, max_eq_right h0]

theorem processField_conf_bounds (data : List (String × Json)) (f : String)
    (fs v : Json) (c : ℚ) (h : processField data f fs = some (v, c)) :
    0 ≤ c ∧ c ≤ 1 := by
  unfold processField at h
  cases hfd : alookup data f with
  | none => rw [hfd] at h; cases h
  | some fd =>
      rw [hfd] at h
      by_cases hs : isScalarSchema fs = true
      · simp only [hs, if_true] at h
        cases h
        exact ⟨normalize_confidence_nonneg _, normalize_confidence_le_one _⟩
      · simp only [hs, if_false, Bool.false_eq_true] at h
        by_cases hl : isListSchema fs = true
        · simp only [hl, if_true] at h
          cases fd with
          | arr items =>
              cases items with
              | nil => cases h; norm_num
              | cons i rest =>
                  simp only [List.map] at h
                  cases h
                  exact ⟨normalize_confidence_nonneg _, normalize_confidence_le_one _⟩
          | null => cases h; norm_num
          | bool b => cases h; norm_num
          | num q => cases h; norm_num
          | str s => cases h; norm_num
          | obj kvs => cases h; norm_num
        · simp only [hl, if_false, Bool.false_eq_true] at h
          cases h
          norm_num

theorem convertFields_conf_bounds (data : List (String × Json)) :
    ∀ (schema : List (String × Json)) (field : String) (c : ℚ),
      alookup (convertFields data schema).2 field = some c → 0 ≤ c ∧ c ≤ 1 := by
  intro schema
  induction schema with
  | nil => intro field c h; cases h
  | cons head tail ih =>
      intro field c h
      obtain ⟨n, fs⟩ := head
      unfold convertFields at h
      cases hp : processField data n fs with
      | none => rw [hp] at h; exact ih field c h
      | some vc =>
          rw [hp] at h
          simp only [alookup] at h
          by_cases hnf : n = field
          · rw [if_pos hnf] at h
            cases h
            exact processField_conf_bounds data n fs vc.1 vc.2 (by rw [hp])
          · rw [if_neg hnf] at h
            exact ih field c h

theorem convertFields_keys (data : List (String × Json)) :
    ∀ (schema : List (String × Json)),
      (convertFields data schema).2.map Prod.fst =
        (convertFields data schema).1.map Prod.fst := by
  intro schema
  induction schema with
  | nil => rfl
  | cons head tail ih =>
      obtain ⟨n, fs⟩ := head
      unfold convertFields
      cases hp : processField data n fs with
      | none => exact ih
      | some vc => simp only [List.map, ih]

/-! ### Claim C7 — stored confidences lie in the unit interval -/

/-- C7: every confidence stored in the record produced by
`_convert_to_attributes` lies in `[0, 1]`, and `_normalize_confidence`
clamps raw values below `0` to `0` and above `1` to `1`. -/
theorem confidences_in_unit_interval :
    (∀ (data schema : List (String × Json)) (field : String) (c : ℚ),
        alookup (convert_to_attributes data schema).confidences field = some c →
          0 ≤ c ∧ c ≤ 1)
    ∧ (∀ x : ℚ, x < 0 → normalize_confidence x = 0)
    ∧ (∀ x : ℚ, 1 < x → normalize_confidence x = 1) := by
  refine ⟨?_, ?_, ?_⟩
  · intro data schema field c h
    exact convertFields_conf_bounds data schema field c h
  · intro x hx
    unfold normalize_confidence
    rw [min_eq_right (by linarith), max_eq_left (by linarith)]
  · intro x hx
    unfold normalize_confidence
    rw [min_eq_left (by linarith), max_eq_right (by norm_num)]

/-- C7 witness: concrete instance of the invariant. -/
theorem confidences_in_unit_interval_witness :
    0 ≤ (1 : ℚ) / 2 ∧ (1 : ℚ) / 2 ≤ 1 :=
  confidences_in_unit_interval.1 [("notes", Json.str "x")] [("notes", Json.str "")]
    "notes" (1 / 2) rfl

/-! ### Claim C2 — confidences keys versus fields keys and the freeform
`notes` field -/

/-- C2 counterexample: with the repository's own schema shape
(`notes` declared as the freeform marker `""`), a `notes` value present
in the JSON root lands in the direct-value branch and DOES get a
confidence entry (0.5), contradicting the claim that a freeform field
gets no entry in the confidences map. -/
theorem notes_confidence_counterexample :
    alookup (convert_to_attributes [("notes", Json.str "hi")]
        [("notes", Json.str "")]).confidences "notes" = some (1 / 2)
    ∧ alookup (convert_to_attributes [("notes", Json.str "hi")]
        [("notes", Json.str "")]).data "notes" = some (Json.str "hi") :=
  ⟨rfl, rfl⟩

/-- C2 amended: the confidences map of a produced record has exactly the
keys of its fields map (every branch of the schema loop fills both maps
or neither — a schema-declared freeform field present in the JSON root
is no exception and receives confidence 0.5 through the direct-value
branch); independently, the record's `notes` attribute is `str(...)` of
the root's `notes` entry when present and `""` otherwise. -/
theorem confidences_keys_match_fields :
    ∀ (data schema : List (String × Json)),
      (convert_to_attributes data schema).confidences.map Prod.fst =
          (convert_to_attributes data schema).data.map Prod.fst
      ∧ (convert_to_attributes data schema).notes =
          (match alookup data "notes" with
           | some v => pyStr v
           | none => "") := by
  intro data schema
  exact ⟨convertFields_keys data schema, rfl⟩

/-! ### Claim C8 — quality-tag assignment -/

/-- C8 counterexample: with schema `brand` scalar plus freeform `notes`
(the repository's own schema shape) and a root carrying `brand` at
confidence 0.9 plus a `notes` string, the freeform-excluded aggregate is
0.9 > 0.8, yet the code tags the record `medium_confidence`: the 0.5
confidence of the schema-declared `notes` field IS included in the
aggregate, contradicting the claim's freeform-exclusion. -/
theorem quality_tag_counterexample :
    specAggregateNoFreeform
        [("brand", Json.obj [("value", Json.str "Nike"), ("confidence", Json.num (9 / 10))]),
          ("notes", Json.str "worn")]
        [("brand", Json.obj [("value", Json.null), ("confidence", Json.num 0)]),
          ("notes", Json.str "")] = 9 / 10
    ∧ ((9 : ℚ) / 10 > 4 / 5)
    ∧ (convert_to_attributes
        [("brand", Json.obj [("value", Json.str "Nike"), ("confidence", Json.num (9 / 10))]),
          ("notes", Json.str "worn")]
        [("brand", Json.obj [("value", Json.null), ("confidence", Json.num 0)]),
          ("notes", Json.str "")]).tags = ["medium_confidence"]
    ∧ "high_confidence" ∉ (convert_to_attributes
        [("brand", Json.obj [("value", Json.str "Nike"), ("confidence", Json.num (9 / 10))]),
          ("notes", Json.str "worn")]
        [("brand", Json.obj [("value", Json.null), ("confidence", Json.num 0)]),
          ("notes", Json.str "")]).tags := by
  have htags : (convert_to_attributes
      [("brand", Json.obj [("value", Json.str "Nike"), ("confidence", Json.num (9 / 10))]),
        ("notes", Json.str "worn")]
      [("brand", Json.obj [("value", Json.null), ("confidence", Json.num 0)]),
        ("notes", Json.str "")]).tags = ["medium_confidence"] := by
    simp [convert_to_attributes, convertFields, processField, alookup,
      isScalarSchema, isListSchema, extract_value, extract_confidence,
      normalize_confidence, aggregate_confidence, qualityTags, min_def, max_def]
    norm_num
  refine ⟨?_, by norm_num, htags, ?_⟩
  · simp [specAggregateNoFreeform, convert_to_attributes, convertFields,
      processField, alookup, isScalarSchema, isListSchema, extract_value,
      extract_confidence, normalize_confidence, List.filter, min_def, max_def]
    norm_num
  · rw [htags]
    decide

/-- C8 amended: exactly one of the three quality tags is assigned, and it
is determined by the aggregate confidence computed as the arithmetic
mean over ALL entries of the record's confidences map (including the 0.5
entries of direct-value fields such as a schema-declared `notes`; `0`
when the map is empty): aggregate > 0.8 gives `high_confidence`,
0.5 < aggregate ≤ 0.8 gives `medium_confidence`, aggregate ≤ 0.5 gives
`low_confidence`. -/
theorem quality_tag_assignment :
    ∀ (data schema : List (String × Json)),
      ((convert_to_attributes data schema).tags = ["high_confidence"] ↔
          aggregate_confidence (convert_to_attributes data schema).confidences > 4 / 5)
      ∧ ((convert_to_attributes data schema).tags = ["medium_confidence"] ↔
          (aggregate_confidence (convert_to_attributes data schema).confidences ≤ 4 / 5 ∧
            aggregate_confidence (convert_to_attributes data schema).confidences > 1 / 2))
      ∧ ((convert_to_attributes data schema).tags = ["low_confidence"] ↔
          aggregate_confidence (convert_to_attributes data schema).confidences ≤ 1 / 2)
      ∧ ((convert_to_attributes data schema).tags.count "high_confidence" +
          (convert_to_attributes data schema).tags.count "medium_confidence" +
          (convert_to_attributes data schema).tags.count "low_confidence") = 1 := by
  intro data schema
  have htags : (convert_to_attributes data schema).tags =
      qualityTags (aggregate_confidence (convert_to_attributes data schema).confidences) :=
    rfl
  rw [htags]
  generalize aggregate_confidence (convert_to_attributes data schema).confidences = agg
  unfold qualityTags
  by_cases h1 : agg > 4 / 5
  · rw [if_pos h1]
    exact ⟨iff_of_true rfl h1,
      iff_of_false (by decide) (by intro hc; exact absurd h1 (not_lt.mpr hc.1)),
      iff_of_false (by decide) (by intro hc; linarith),
      by decide⟩
  · by_cases h2 : agg > 1 / 2
    · rw [if_neg h1, if_pos h2]
      exact ⟨iff_of_false (by decide) h1,
        iff_of_true rfl ⟨not_lt.mp h1, h2⟩,
        iff_of_false (by decide) (by intro hc; linarith),
        by decide⟩
    · rw [if_neg h1, if_neg h2]
      exact ⟨iff_of_false (by decide) h1,
        iff_of_false (by decide) (by intro hc; exact h2 hc.2),
        iff_of_true rfl (not_lt.mp h2),
        by decide⟩

theorem convertFields_not_mem (data : List (String × Json)) :
    ∀ (schema : List (String × Json)) (f : String),
      f ∉ schema.map Prod.fst →
        alookup (convertFields data schema).1 f = none
        ∧ alookup (convertFields data schema).2 f = none := by
  intro schema
  induction schema with
  | nil => intro f _; exact ⟨rfl, rfl⟩
  | cons head tail ih =>
      intro f hf
      obtain ⟨n, fs⟩ := head
      simp only [List.map, List.mem_cons, not_or] at hf
      unfold convertFields
      cases hp : processField data n fs with
      | none => exact ih f hf.2
      | some vc =>
          have hnf : n ≠ f := fun h => hf.1 h.symm
          simp only [alookup, if_neg hnf]
          exact ih f hf.2

theorem convertFields_lookup (data : List (String × Json)) :
    ∀ (schema : List (String × Json)) (f : String) (fs : Json),
      (schema.map Prod.fst).Nodup →
      alookup schema f = some fs →
        alookup (convertFields data schema).1 f = (processField data f fs).map Prod.fst
        ∧ alookup (convertFields data schema).2 f = (processField data f fs).map Prod.snd := by
  intro schema
  induction schema with
  | nil => intro f fs _ h; cases h
  | cons head tail ih =>
      intro f fs hnd hfs
      obtain ⟨n, s0⟩ := head
      simp only [List.map, List.nodup_cons] at hnd
      unfold alookup at hfs
      by_cases hnf : n = f
      · subst hnf
        rw [if_pos rfl] at hfs
        injection hfs with hfs0
        subst hfs0
        unfold convertFields
        cases hp : processField data n s0 with
        | none =>
            have hnot := convertFields_not_mem data tail n hnd.1
            exact ⟨hnot.1, hnot.2⟩
        | some vc =>
            obtain ⟨v, c⟩ := vc
            simp only [alookup, if_pos rfl, Option.map_some]
            exact ⟨rfl, rfl⟩
      · rw [if_neg hnf] at hfs
        unfold convertFields
        cases hp : processField data n s0 with
        | none => exact ih f fs hnd.2 hfs
        | some vc =>
            obtain ⟨v, c⟩ := vc
            simp only [alookup, if_neg hnf]
            exact ih f fs hnd.2 hfs

theorem sum_le_length (l : List ℚ) (h : ∀ x ∈ l, x ≤ 1) :
    l.sum ≤ (l.length : ℚ) := by
  induction l with
  | nil => simp
  | cons x xs ih =>
      simp only [List.sum_cons, List.length_cons]
      push_cast
      have hx := h x (List.mem_cons_self x xs)
      have hxs := ih (fun y hy => h y (List.mem_cons_of_mem x hy))
      linarith

theorem mean_mem_unit (l : List ℚ) (h : ∀ x ∈ l, 0 ≤ x ∧ x ≤ 1) (hne : l ≠ []) :
    0 ≤ l.sum / (l.length : ℚ) ∧ l.sum / (l.length : ℚ) ≤ 1 := by
  have hlen : 0 < (l.length : ℚ) := by
    have := List.length_pos.mpr hne
    exact_mod_cast this
  constructor
  · exact div_nonneg (List.sum_nonneg (fun x hx => (h x hx).1)) (le_of_lt hlen)
  · rw [div_le_one hlen]
    exact sum_le_length l (fun x hx => (h x hx).2)

theorem processItem_conf_bounds (it : Json) :
    0 ≤ itemConfValue (processItem it) ∧ itemConfValue (processItem it) ≤ 1 := by
  cases it with
  | obj kvs =>
      rw [show itemConfValue (processItem (Json.obj kvs)) =
            normalize_confidence (extract_confidence (Json.obj kvs)) from rfl]
      exact ⟨normalize_confidence_nonneg _, normalize_confidence_le_one _⟩
  | null =>
      rw [show itemConfValue (processItem Json.null) = 1 / 2 from rfl]
      norm_num
  | bool b =>
      rw [show itemConfValue (processItem (Json.bool b)) = 1 / 2 from rfl]
      norm_num
  | num q =>
      rw [show itemConfValue (processItem (Json.num q)) = 1 / 2 from rfl]
      norm_num
  | str s =>
      rw [show itemConfValue (processItem (Json.str s)) = 1 / 2 from rfl]
      norm_num
  | arr xs =>
      rw [show itemConfValue (processItem (Json.arr xs)) = 1 / 2 from rfl]
      norm_num

/-! ### Claim C5 — scalar field mapping -/

/-- C5 counterexample: a scalar field whose JSON value is an object with
a `confidence` entry but NO `value` key stores the whole object as the
field value, yet its stored confidence is the object's `confidence`
entry (0.7 here), not 0.0 as the claim's `otherwise` branch states:
`_extract_value` and `_extract_confidence` test their keys
independently. -/
theorem scalar_confidence_counterexample :
    alookup (convert_to_attributes
        [("brand", Json.obj [("confidence", Json.num (7 / 10))])]
        [("brand", Json.obj [("value", Json.null), ("confidence", Json.num 0)])]).confidences
      "brand" = some (7 / 10)
    ∧ alookup (convert_to_attributes
        [("brand", Json.obj [("confidence", Json.num (7 / 10))])]
        [("brand", Json.obj [("value", Json.null), ("confidence", Json.num 0)])]).data
      "brand" = some (Json.obj [("confidence", Json.num (7 / 10))])
    ∧ (7 : ℚ) / 10 ≠ 0 := by
  refine ⟨?_, rfl, by norm_num⟩
  have h : alookup (convert_to_attributes
      [("brand", Json.obj [("confidence", Json.num (7 / 10))])]
      [("brand", Json.obj [("value", Json.null), ("confidence", Json.num 0)])]).confidences
      "brand" = some (normalize_confidence (7 / 10)) := rfl
  rw [h, normalize_confidence_of_mem_unit _ (by norm_num) (by norm_num)]

/-- C5 amended: for a scalar schema field present in the top-level JSON
object, the stored value is `_extract_value` of the JSON value (the
`value` entry when the value is an object containing one, else the whole
value) and the stored confidence is the clamped `_extract_confidence`
(the numeric `confidence` entry whenever the value is an object carrying
one — independently of the presence of a `value` key — else 0.0).  The
claim's concrete Nike example holds as stated. -/
theorem scalar_field_mapping :
    (∀ (data schema : List (String × Json)) (f : String) (fs fd : Json),
        (schema.map Prod.fst).Nodup →
        alookup schema f = some fs →
        isScalarSchema fs = true →
        alookup data f = some fd →
          alookup (convert_to_attributes data schema).data f = some (extract_value fd)
          ∧ alookup (convert_to_attributes data schema).confidences f =
              some (normalize_confidence (extract_confidence fd)))
    ∧ alookup (convert_to_attributes
        [("brand", Json.obj [("value", Json.str "Nike"), ("confidence", Json.num (9 / 10))])]
        [("brand", Json.obj [("value", Json.null), ("confidence", Json.num 0)])]).data
      "brand" = some (Json.str "Nike")
    ∧ alookup (convert_to_attributes
        [("brand", Json.obj [("value", Json.str "Nike"), ("confidence", Json.num (9 / 10))])]
        [("brand", Json.obj [("value", Json.null), ("confidence", Json.num 0)])]).confidences
      "brand" = some (9 / 10)
    ∧ (convert_to_attributes
        [("brand", Json.obj [("value", Json.str "Nike"), ("confidence", Json.num (9 / 10))])]
        [("brand", Json.obj [("value", Json.null), ("confidence", Json.num 0)])]).tags =
      ["high_confidence"] := by
  refine ⟨?_, rfl, ?_, ?_⟩
  · intro data schema f fs fd hnd hfs hscalar hfd
    have hlk := convertFields_lookup data schema f fs hnd hfs
    have hpf : processField data f fs =
        some (extract_value fd, normalize_confidence (extract_confidence fd)) := by
      unfold processField
      rw [hfd]
      simp [hscalar]
    refine ⟨?_, ?_⟩
    · have := hlk.1
      rw [hpf] at this
      exact this
    · have := hlk.2
      rw [hpf] at this
      exact this
  · have h : alookup (convert_to_attributes
        [("brand", Json.obj [("value", Json.str "Nike"), ("confidence", Json.num (9 / 10))])]
        [("brand", Json.obj [("value", Json.null), ("confidence", Json.num 0)])]).confidences
        "brand" = some (normalize_confidence (9 / 10)) := rfl
    rw [h, normalize_confidence_of_mem_unit _ (by norm_num) (by norm_num)]
  · simp [convert_to_attributes, convertFields, processField, alookup,
      isScalarSchema, isListSchema, extract_value, extract_confidence,
      normalize_confidence, aggregate_confidence, qualityTags, min_def, max_def]
    norm_num

/-- C5 witness: the general scalar-mapping statement applied at the Nike
input, with its hypotheses discharged concretely. -/
theorem scalar_field_mapping_witness :
    alookup (convert_to_attributes
        [("brand", Json.obj [("value", Json.str "Nike"), ("confidence", Json.num (9 / 10))])]
        [("brand", Json.obj [("value", Json.null), ("confidence", Json.num 0)])]).data
      "brand" = some (extract_value
        (Json.obj [("value", Json.str "Nike"), ("confidence", Json.num (9 / 10))]))
    ∧ alookup (convert_to_attributes
        [("brand", Json.obj [("value", Json.str "Nike"), ("confidence", Json.num (9 / 10))])]
        [("brand", Json.obj [("value", Json.null), ("confidence", Json.num 0)])]).confidences
      "brand" = some (normalize_confidence (extract_confidence
        (Json.obj [("value", Json.str "Nike"), ("confidence", Json.num (9 / 10))]))) :=
  scalar_field_mapping.1
    [("brand", Json.obj [("value", Json.str "Nike"), ("confidence", Json.num (9 / 10))])]
    [("brand", Json.obj [("value", Json.null), ("confidence", Json.num 0)])]
    "brand" (Json.obj [("value", Json.null), ("confidence", Json.num 0)])
    (Json.obj [("value", Json.str "Nike"), ("confidence", Json.num (9 / 10))])
    (by decide) rfl rfl rfl

theorem normalize_listAvg (i : Json) (rest : List Json) :
    normalize_confidence ((((i :: rest).map processItem).map itemConfValue).sum /
        ((((i :: rest).map processItem).length : ℕ) : ℚ)) = listMeanConf (i :: rest) := by
  have hmm : ((i :: rest).map processItem).map itemConfValue =
      (i :: rest).map (fun it => itemConfValue (processItem it)) := by
    rw [List.map_map]
    rfl
  rw [hmm, List.length_map]
  have hb : ∀ x ∈ (i :: rest).map (fun it => itemConfValue (processItem it)),
      0 ≤ x ∧ x ≤ 1 := by
    intro x hx
    obtain ⟨it, _, rfl⟩ := List.mem_map.mp hx
    exact processItem_conf_bounds it
  have hne : (i :: rest).map (fun it => itemConfValue (processItem it)) ≠ [] := by simp
  have hmean := mean_mem_unit _ hb hne
  rw [List.length_map] at hmean
  exact normalize_confidence_of_mem_unit _ hmean.1 hmean.2

/-! ### Claim C6 — list field mapping -/

/-- C6: for a list schema field present in the top-level JSON object,
object elements map to `{name: extracted name, confidence: clamped
confidence (default 0.0)}`, bare elements map to `{name: str(element),
confidence: 0.5}`, a non-list JSON value stores an empty list with
confidence 0.0, and the stored field confidence is the arithmetic mean
of the per-item clamped confidences (the code's outer re-clamping of the
mean is the identity, because a mean of values in `[0, 1]` is again in
`[0, 1]`). -/
theorem list_field_mapping :
    (∀ (data schema : List (String × Json)) (f : String) (fs : Json)
        (items : List Json),
        (schema.map Prod.fst).Nodup →
        alookup schema f = some fs →
        isScalarSchema fs = false →
        isListSchema fs = true →
        alookup data f = some (Json.arr items) →
          alookup (convert_to_attributes data schema).data f =
              some (Json.arr (items.map processItem))
          ∧ alookup (convert_to_attributes data schema).confidences f =
              some (listMeanConf items))
    ∧ (∀ (data schema : List (String × Json)) (f : String) (fs fd : Json),
        (schema.map Prod.fst).Nodup →
        alookup schema f = some fs →
        isScalarSchema fs = false →
        isListSchema fs = true →
        alookup data f = some fd →
        (∀ items : List Json, fd ≠ Json.arr items) →
          alookup (convert_to_attributes data schema).data f = some (Json.arr [])
          ∧ alookup (convert_to_attributes data schema).confidences f = some 0)
    ∧ (∀ item : Json, (∀ kvs, item ≠ Json.obj kvs) →
        processItem item =
          Json.obj [("name", Json.str (pyStr item)), ("confidence", Json.num (1 / 2))])
    ∧ (∀ kvs : List (String × Json),
        processItem (Json.obj kvs) =
          Json.obj [("name", extract_value ((alookup kvs "name").getD (Json.str ""))),
            ("confidence",
              Json.num (normalize_confidence (extract_confidence (Json.obj kvs))))]) := by
  refine ⟨?_, ?_, ?_, ?_⟩
  · intro data schema f fs items hnd hfs hns hl hfd
    have hlk := convertFields_lookup data schema f fs hnd hfs
    have hpf : processField data f fs =
        some (Json.arr (items.map processItem), listMeanConf items) := by
      unfold processField
      rw [hfd]
      simp only [hns, Bool.false_eq_true, if_false, hl, if_true]
      cases items with
      | nil => rfl
      | cons i rest =>
          rw [← normalize_listAvg i rest]
          rfl
    rw [hpf] at hlk
    exact ⟨hlk.1, hlk.2⟩
  · intro data schema f fs fd hnd hfs hns hl hfd hnotarr
    have hlk := convertFields_lookup data schema f fs hnd hfs
    have hpf : processField data f fs = some (Json.arr [], 0) := by
      unfold processField
      rw [hfd]
      simp only [hns, Bool.false_eq_true, if_false, hl, if_true]
    rw [hpf] at hlk
    exact ⟨hlk.1, hlk.2⟩
  · intro item h
    cases item with
    | obj kvs => exact absurd rfl (h kvs)
    | null => rfl
    | bool b => rfl
    | num q => rfl
    | str s => rfl
    | arr xs => rfl
  · intro kvs
    rfl

/-- C6 witness: the list-mapping statement applied at the spec's
`primary_colors` example, whose stored confidence is the mean `0.85`. -/
theorem list_field_mapping_witness :
    (alookup (convert_to_attributes
        [("primary_colors", Json.arr
          [Json.obj [("name", Json.str "white"), ("confidence", Json.num (9 / 10))],
            Json.obj [("name", Json.str "black"), ("confidence", Json.num (4 / 5))]])]
        [("primary_colors", Json.arr
          [Json.obj [("name", Json.str ""), ("confidence", Json.num 0)]])]).data
      "primary_colors" = some (Json.arr
        ([Json.obj [("name", Json.str "white"), ("confidence", Json.num (9 / 10))],
          Json.obj [("name", Json.str "black"), ("confidence", Json.num (4 / 5))]].map
          processItem))
    ∧ alookup (convert_to_attributes
        [("primary_colors", Json.arr
          [Json.obj [("name", Json.str "white"), ("confidence", Json.num (9 / 10))],
            Json.obj [("name", Json.str "black"), ("confidence", Json.num (4 / 5))]])]
        [("primary_colors", Json.arr
          [Json.obj [("name", Json.str ""), ("confidence", Json.num 0)]])]).confidences
      "primary_colors" = some (listMeanConf
        [Json.obj [("name", Json.str "white"), ("confidence", Json.num (9 / 10))],
          Json.obj [("name", Json.str "black"), ("confidence", Json.num (4 / 5))]]))
    ∧ listMeanConf
        [Json.obj [("name", Json.str "white"), ("confidence", Json.num (9 / 10))],
          Json.obj [("name", Json.str "black"), ("confidence", Json.num (4 / 5))]] =
      17 / 20 :=
  ⟨list_field_mapping.1
      [("primary_colors", Json.arr
        [Json.obj [("name", Json.str "white"), ("confidence", Json.num (9 / 10))],
          Json.obj [("name", Json.str "black"), ("confidence", Json.num (4 / 5))]])]
      [("primary_colors", Json.arr
        [Json.obj [("name", Json.str ""), ("confidence", Json.num 0)]])]
      "primary_colors"
      (Json.arr [Json.obj [("name", Json.str ""), ("confidence", Json.num 0)]])
      [Json.obj [("name", Json.str "white"), ("confidence", Json.num (9 / 10))],
        Json.obj [("name", Json.str "black"), ("confidence", Json.num (4 / 5))]]
      (by decide) rfl rfl rfl rfl,
    by
      simp [listMeanConf, processItem, itemConfValue, alookup, extract_value,
        extract_confidence, normalize_confidence, min_def, max_def]
      norm_num⟩

theorem decisionFold_eq (confidences thresholds : List (String × ℚ)) :
    ∀ l : List (String × Json),
      decisionFold confidences thresholds l =
        ((consideredList confidences l).map
            (fun p =>
              (p.1, if p.2 ≥ get_threshold thresholds p.1 then "accepted"
                    else "low_confidence")),
          (consideredList confidences l).filterMap
            (fun p =>
              if p.2 ≥ get_threshold thresholds p.1 then none
              else some (mkFieldReason p.1 p.2 (get_threshold thresholds p.1))),
          ((consideredList confidences l).map Prod.snd).sum,
          (consideredList confidences l).length) := by
  intro l
  induction l with
  | nil => rfl
  | cons head rest ih =>
      obtain ⟨n, j⟩ := head
      simp only [decisionFold, consideredList]
      cases hc : alookup confidences n with
      | none => simp only [ih]
      | some c =>
          by_cases ht : c ≥ get_threshold thresholds n
          · simp only [ih, if_pos ht, List.map_cons, List.filterMap_cons,
              List.sum_cons, List.length_cons]
          · simp only [ih, if_neg ht, List.map_cons, List.filterMap_cons,
              List.sum_cons, List.length_cons]

theorem consideredList_alookup (conf : List (String × ℚ)) (g : String × ℚ → String) :
    ∀ (l : List (String × Json)) (field : String) (c : ℚ),
      field ∈ l.map Prod.fst → alookup conf field = some c →
        alookup ((consideredList conf l).map (fun p => (p.1, g p))) field =
          some (g (field, c)) := by
  intro l
  induction l with
  | nil => intro field c hmem _; cases hmem
  | cons head rest ih =>
      intro field c hmem hc
      obtain ⟨n, j⟩ := head
      unfold consideredList
      by_cases hnf : n = field
      · subst hnf
        rw [hc]
        simp only [List.map_cons, alookup, if_pos rfl, if_true]
      · have hmem2 : field ∈ rest.map Prod.fst := by
          simp only [List.map_cons, List.mem_cons] at hmem
          exact hmem.resolve_left (fun h => hnf h.symm)
        cases hcn : alookup conf n with
        | none => exact ih field c hmem2 hc
        | some c0 =>
            simp only [List.map_cons, alookup, if_neg hnf]
            exact ih field c hmem2 hc

theorem sum_div_considered (attributes : Attributes) :
    (if (consideredFields attributes).length > 0 then
        ((consideredFields attributes).map Prod.snd).sum /
          ((consideredFields attributes).length : ℚ)
      else ((consideredFields attributes).map Prod.snd).sum) =
      meanConsidered attributes := by
  unfold meanConsidered
  cases hC : consideredFields attributes with
  | nil => simp
  | cons a rest => simp

/-- Restates `_make_decision`, with its loop replaced by explicit functions of the
considered fields: the flags map, the field-level reasons, the optional
overall-rejection reason, and the mean confidence score. -/
theorem make_decision_eq (attributes : Attributes) (policy : List (String × ℚ)) :
    make_decision attributes policy =
      ⟨decide (meanConsidered attributes ≥ get_threshold policy "default"),
        (consideredFields attributes).map
          (fun p =>
            (p.1, if p.2 ≥ get_threshold policy p.1 then "accepted"
                  else "low_confidence")),
        fieldLevelReasons attributes policy ++
          (if meanConsidered attributes ≥ get_threshold policy "default" then []
           else [mkOverallReason (meanConsidered attributes)
                  (get_threshold policy "default")]),
        meanConsidered attributes⟩ := by
  have hoc := sum_div_considered attributes
  unfold consideredFields at hoc
  unfold make_decision
  rw [decisionFold_eq attributes.confidences policy attributes.data]
  dsimp only
  rw [hoc]
  unfold fieldLevelReasons consideredFields
  simp only [decide_eq_true_eq]

/-! ### Claim C1 — overall acceptance -/

/-- C1: for every record and every threshold policy containing a
`default` entry, the decision's `accepted` is true iff the
`confidence_score` — the unweighted mean of the confidences of the
considered fields (the `data` entries carrying a confidence), `0` when
there are none — is at least `policy["default"]`; per-field
`low_confidence` flags never by themselves veto acceptance (acceptance
depends only on the aggregate test), and when the test fails exactly one
overall-rejection reason citing the aggregate score and the default
threshold is appended after the field-level reasons. -/
theorem decision_accept_spec (attributes : Attributes)
    (policy : List (String × ℚ)) (d : ℚ)
    (hd : alookup policy "default" = some d) :
    ((make_decision attributes policy).accepted = true ↔
        meanConsidered attributes ≥ d)
    ∧ (make_decision attributes policy).confidence_score = meanConsidered attributes
    ∧ (make_decision attributes policy).reasons =
        fieldLevelReasons attributes policy ++
          (if meanConsidered attributes ≥ d then []
           else [mkOverallReason (meanConsidered attributes) d]) := by
  have hdef : get_threshold policy "default" = d := by
    unfold get_threshold
    rw [hd]
    rfl
  rw [make_decision_eq, hdef]
  refine ⟨?_, rfl, rfl⟩
  exact decide_eq_true_iff

/-- C1 witness: the spec's scenario-5 record — confidences
`{brand: 0.3, model: 0.25}` against policy `{default: 0.75, brand: 0.8}`
— is rejected with aggregate score `0.275` and three reasons (one per
low field plus the overall rejection). -/
theorem decision_accept_spec_witness :
    (make_decision
        ⟨[("brand", Json.null), ("model", Json.null)],
          [("brand", 3 / 10), ("model", 1 / 4)], ["low_confidence"], ""⟩
        [("default", 3 / 4), ("brand", 4 / 5)]).accepted = false
    ∧ (make_decision
        ⟨[("brand", Json.null), ("model", Json.null)],
          [("brand", 3 / 10), ("model", 1 / 4)], ["low_confidence"], ""⟩
        [("default", 3 / 4), ("brand", 4 / 5)]).confidence_score = 11 / 40
    ∧ (make_decision
        ⟨[("brand", Json.null), ("model", Json.null)],
          [("brand", 3 / 10), ("model", 1 / 4)], ["low_confidence"], ""⟩
        [("default", 3 / 4), ("brand", 4 / 5)]).reasons.length = 3 := by
  have h := decision_accept_spec
    ⟨[("brand", Json.null), ("model", Json.null)],
      [("brand", 3 / 10), ("model", 1 / 4)], ["low_confidence"], ""⟩
    [("default", 3 / 4), ("brand", 4 / 5)] (3 / 4) rfl
  have hm : meanConsidered
      ⟨[("brand", Json.null), ("model", Json.null)],
        [("brand", 3 / 10), ("model", 1 / 4)], ["low_confidence"], ""⟩ = 11 / 40 := by
    simp [meanConsidered, consideredFields, consideredList, alookup]
    norm_num
  refine ⟨?_, ?_, ?_⟩
  · have hne : ¬((make_decision
        ⟨[("brand", Json.null), ("model", Json.null)],
          [("brand", 3 / 10), ("model", 1 / 4)], ["low_confidence"], ""⟩
        [("default", 3 / 4), ("brand", 4 / 5)]).accepted = true) := by
      rw [h.1, hm]
      norm_num
    exact Bool.eq_false_iff.mpr hne
  · rw [h.2.1, hm]
  · rw [h.2.2, hm]
    rw [if_neg (by norm_num : ¬((11 : ℚ) / 40 ≥ 3 / 4))]
    rw [List.length_append]
    have hfl : fieldLevelReasons
        ⟨[("brand", Json.null), ("model", Json.null)],
          [("brand", 3 / 10), ("model", 1 / 4)], ["low_confidence"], ""⟩
        [("default", 3 / 4), ("brand", 4 / 5)] =
        [mkFieldReason "brand" (3 / 10) (4 / 5),
          mkFieldReason "model" (1 / 4) (3 / 4)] := by
      simp [fieldLevelReasons, consideredFields, consideredList, alookup,
        get_threshold, List.filterMap_cons]
      norm_num
    rw [hfl]
    rfl

/-! ### Claim C9 — per-field flags, threshold fallback and field-level
reasons -/

/-- C9: for every field of the record carrying a confidence entry (all
fields of a parsed record do; the hypothesis `hmem` records that the
field is among the data keys, which holds for every record the parser
produces since both maps share their keys), the effective threshold is
`policy[field]` when present and `policy["default"]` otherwise; the
field is flagged `accepted` iff its confidence is at least that
threshold and `low_confidence` otherwise; and the decision's reasons are
exactly one reason per considered field below its threshold — built from
the field name and the confidence and threshold rendered to three
decimal places — in record order, followed by the overall part. -/
theorem field_flag_spec (attributes : Attributes) (policy : List (String × ℚ))
    (d c : ℚ) (field : String)
    (hd : alookup policy "default" = some d)
    (hc : alookup attributes.confidences field = some c)
    (hmem : field ∈ attributes.data.map Prod.fst) :
    get_threshold policy field = (alookup policy field).getD d
    ∧ alookup (make_decision attributes policy).field_flags field =
        some (if c ≥ get_threshold policy field then "accepted"
              else "low_confidence")
    ∧ (make_decision attributes policy).reasons =
        (consideredFields attributes).filterMap
          (fun p =>
            if p.2 ≥ get_threshold policy p.1 then none
            else some (mkFieldReason p.1 p.2 (get_threshold policy p.1))) ++
          (if meanConsidered attributes ≥ d then []
           else [mkOverallReason (meanConsidered attributes) d]) := by
  have hdef : get_threshold policy "default" = d := by
    unfold get_threshold
    rw [hd]
    rfl
  refine ⟨?_, ?_, ?_⟩
  · unfold get_threshold
    rw [hd]
    rfl
  · rw [make_decision_eq]
    exact consideredList_alookup attributes.confidences
      (fun p =>
        if p.2 ≥ get_threshold policy p.1 then "accepted" else "low_confidence")
      attributes.data field c hmem hc
  · rw [make_decision_eq, hdef]
    rfl

/-- C9 witness: the per-field statement applied to the scenario-5 record
at field `brand`, whose policy entry (0.8) overrides the default. -/
theorem field_flag_spec_witness :
    get_threshold [("default", (3 : ℚ) / 4), ("brand", 4 / 5)] "brand" =
        (alookup [("default", (3 : ℚ) / 4), ("brand", 4 / 5)] "brand").getD (3 / 4)
    ∧ alookup (make_decision
        ⟨[("brand", Json.null), ("model", Json.null)],
          [("brand", 3 / 10), ("model", 1 / 4)], ["low_confidence"], ""⟩
        [("default", 3 / 4), ("brand", 4 / 5)]).field_flags "brand" =
        some (if (3 : ℚ) / 10 ≥
            get_threshold [("default", (3 : ℚ) / 4), ("brand", 4 / 5)] "brand" then
            "accepted" else "low_confidence")
    ∧ (make_decision
        ⟨[("brand", Json.null), ("model", Json.null)],
          [("brand", 3 / 10), ("model", 1 / 4)], ["low_confidence"], ""⟩
        [("default", 3 / 4), ("brand", 4 / 5)]).reasons =
        (consideredFields
            ⟨[("brand", Json.null), ("model", Json.null)],
              [("brand", 3 / 10), ("model", 1 / 4)], ["low_confidence"], ""⟩).filterMap
          (fun p =>
            if p.2 ≥ get_threshold [("default", (3 : ℚ) / 4), ("brand", 4 / 5)] p.1
            then none
            else some (mkFieldReason p.1 p.2
              (get_threshold [("default", (3 : ℚ) / 4), ("brand", 4 / 5)] p.1))) ++
          (if meanConsidered
              ⟨[("brand", Json.null), ("model", Json.null)],
                [("brand", 3 / 10), ("model", 1 / 4)], ["low_confidence"], ""⟩ ≥
              3 / 4 then []
           else [mkOverallReason (meanConsidered
              ⟨[("brand", Json.null), ("model", Json.null)],
                [("brand", 3 / 10), ("model", 1 / 4)], ["low_confidence"], ""⟩)
              (3 / 4)]) :=
  field_flag_spec
    ⟨[("brand", Json.null), ("model", Json.null)],
      [("brand", 3 / 10), ("model", 1 / 4)], ["low_confidence"], ""⟩
    [("default", 3 / 4), ("brand", 4 / 5)] (3 / 4) (3 / 10) "brand"
    rfl rfl (by decide)

theorem extractStep1_sound (loads : Loads) (c s : String)
    (h : extractStep1 loads c = some s) : is_pure_json loads s = true := by
  unfold extractStep1 at h
  by_cases h1 : is_pure_json loads c = true
  · rw [if_pos h1] at h
    cases h
    exact h1
  · rw [if_neg h1] at h
    cases h

theorem extractStep2_sound (loads : Loads) (md : Bool) (c s : String)
    (h : extractStep2 loads md c = some s) : is_pure_json loads s = true := by
  unfold extractStep2 at h
  by_cases hmd : md = true
  · rw [if_pos hmd] at h
    exact List.find?_some h
  · rw [if_neg hmd] at h
    cases h

theorem extractStep3_sound (loads : Loads) (c s : String)
    (h : extractStep3 loads c = some s) : is_pure_json loads s = true := by
  unfold extractStep3 at h
  exact List.find?_some h

theorem extractStep4_sound (loads : Loads) (c s : String)
    (h : extractStep4 loads c = some s) : is_pure_json loads s = true := by
  unfold extractStep4 at h
  by_cases h4 : (!(clean_json_content c == "") &&
      is_pure_json loads (clean_json_content c)) = true
  · rw [if_pos h4] at h
    cases h
    exact (Bool.and_eq_true_iff.mp h4).2
  · rw [if_neg h4] at h
    cases h

theorem extractStep5_sound (loads : Loads) (c s : String)
    (h : extractStep5 loads c = some s) : is_pure_json loads s = true := by
  unfold extractStep5 at h
  cases hf : (braceMatches c).find?
      (fun m =>
        !(clean_json_content m == "") &&
          is_pure_json loads (clean_json_content m)) with
  | none => rw [hf] at h; cases h
  | some m =>
      rw [hf] at h
      cases h
      have hpa := List.find?_some hf
      simp only [Bool.and_eq_true_iff] at hpa
      exact hpa.2

/-- Proves `_extract_json` equal to the explicit first-success alternation of its
five strategies. -/
theorem extract_json_staged (loads : Loads) (md : Bool) (content : String) :
    extract_json loads md content = extractStaged loads md content := by
  unfold extract_json extractStaged extractStep1 extractStep2 extractStep3
    extractStep4 extractStep5
  by_cases h1 : is_pure_json loads (pyStrip content) = true
  · simp [h1]
  · cases h2 : (if md then
        (mdMatches (pyStrip content)).find? (fun m => is_pure_json loads m)
      else none) with
    | some m => simp [h1, h2]
    | none =>
        cases h3 : (braceMatches (pyStrip content)).find?
            (fun m => is_pure_json loads m) with
        | some m => simp [h1, h2, h3]
        | none =>
            by_cases h4 : (!(clean_json_content (pyStrip content) == "") &&
                is_pure_json loads (clean_json_content (pyStrip content))) = true
            · simp [h1, h2, h3, h4]
            · cases h5 : (braceMatches (pyStrip content)).find?
                  (fun m =>
                    !(clean_json_content m == "") &&
                      is_pure_json loads (clean_json_content m)) with
              | some m => simp [h1, h2, h3, h4, h5]
              | none => simp [h1, h2, h3, h4, h5]

/-! ### Claim C10 — every extracted string decodes -/

/-- C10: whenever `_extract_json` returns a string rather than raising,
that string parses as valid JSON (every return path is guarded by a
successful parse check), so the `json.JSONDecodeError` handler of
`parse` is unreachable after a completed extraction: `parse` never
yields the decode-failure outcome, for any `json.loads` function, input
and schema. -/
theorem extract_json_sound (loads : Loads) (md : Bool) (content : String)
    (schema : List (String × Json)) :
    (∀ s, extract_json loads md content = some s → is_pure_json loads s = true)
    ∧ parse loads md content schema ≠ ParseOutcome.decodeFailure := by
  have hs : ∀ s, extract_json loads md content = some s →
      is_pure_json loads s = true := by
    intro s h
    rw [extract_json_staged] at h
    replace h : (extractStep1 loads (pyStrip content) <|>
        extractStep2 loads md (pyStrip content) <|>
          extractStep3 loads (pyStrip content) <|>
            extractStep4 loads (pyStrip content) <|>
              extractStep5 loads (pyStrip content)) = some s := h
    cases ho1 : extractStep1 loads (pyStrip content) with
    | some v =>
        rw [ho1] at h
        simp only [Option.some_orElse] at h
        cases h
        exact extractStep1_sound loads (pyStrip content) s ho1
    | none =>
        rw [ho1] at h
        simp only [Option.none_orElse] at h
        cases ho2 : extractStep2 loads md (pyStrip content) with
        | some v =>
            rw [ho2] at h
            simp only [Option.some_orElse] at h
            cases h
            exact extractStep2_sound loads md (pyStrip content) s ho2
        | none =>
            rw [ho2] at h
            simp only [Option.none_orElse] at h
            cases ho3 : extractStep3 loads (pyStrip content) with
            | some v =>
                rw [ho3] at h
                simp only [Option.some_orElse] at h
                cases h
                exact extractStep3_sound loads (pyStrip content) s ho3
            | none =>
                rw [ho3] at h
                simp only [Option.none_orElse] at h
                cases ho4 : extractStep4 loads (pyStrip content) with
                | some v =>
                    rw [ho4] at h
                    simp only [Option.some_orElse] at h
                    cases h
                    exact extractStep4_sound loads (pyStrip content) s ho4
                | none =>
                    rw [ho4] at h
                    simp only [Option.none_orElse] at h
                    exact extractStep5_sound loads (pyStrip content) s h
  refine ⟨hs, ?_⟩
  cases he : extract_json loads md content with
  | none =>
      unfold parse
      simp only [he]
      intro hcontra
      cases hcontra
  | some s =>
      have hp := hs s he
      unfold is_pure_json at hp
      cases hl : loads s with
      | none => rw [hl] at hp; cases hp
      | some v =>
          unfold parse
          simp only [he, hl]
          cases v <;> simp

/-- C10 witness: the soundness statement applied at a concrete pure-JSON
input. -/
theorem extract_json_sound_witness :
    is_pure_json jsonLoads "\x7b\x7d" = true :=
  (extract_json_sound jsonLoads true "\x7b\x7d" []).1 "\x7b\x7d" rfl

/-! ### Claim C3 — `can_parse` has no false negatives for steps 1-2 -/

/-- C3: `can_parse` is a pure function of the response content (the
embedding is side-effect-free by construction), and whenever a step-1
extraction (the stripped text itself parses) or a step-2 extraction (a
fenced code-block candidate parses, markdown extraction enabled) would
succeed, `can_parse` returns true — for any `json.loads` function. -/
theorem can_parse_no_false_negatives (loads : Loads) (extract_from_markdown : Bool)
    (content : String)
    (h : extractStep1 loads (pyStrip content) ≠ none
      ∨ extractStep2 loads extract_from_markdown (pyStrip content) ≠ none) :
    can_parse loads extract_from_markdown content = true := by
  unfold can_parse
  by_cases h1 : is_pure_json loads (pyStrip content) = true
  · rw [if_pos h1]
  · rw [if_neg h1]
    cases h with
    | inl hs1 =>
        exfalso
        apply hs1
        unfold extractStep1
        rw [if_neg h1]
    | inr hs2 =>
        unfold extractStep2 at hs2
        by_cases hmd : extract_from_markdown = true
        · rw [if_pos hmd] at hs2
          have hfind := Option.ne_none_iff_isSome.mp hs2
          have hh : has_json_in_markdown loads (pyStrip content) = true := by
            unfold has_json_in_markdown
            rw [List.any_eq_true]
            rw [List.find?_isSome] at hfind
            obtain ⟨m, hm, hpm⟩ := hfind
            exact ⟨m, hm, hpm⟩
          rw [hmd, hh]
          rfl
        · rw [if_neg hmd] at hs2
          exact absurd rfl hs2

/-- C3 witness: a fenced markdown block whose body parses makes
`can_parse` true. -/
theorem can_parse_no_false_negatives_witness :
    can_parse jsonLoads true "```json\n\x7b\"brand\": \"Puma\"\x7d\n```" = true :=
  can_parse_no_false_negatives jsonLoads true
    "```json\n\x7b\"brand\": \"Puma\"\x7d\n```" (Or.inr (by decide))

/-! ### Claim C4 — extraction strategy order and the empty edge case -/

/-- C4 counterexample: on text embedding a depth-3 JSON object, the
code's third strategy (the depth-limited regex scan over ALL brace
substrings) extracts the inner depth-2 object, while the algorithm the
claim describes (a brace-matching scan from the first brace up to its
matching close) would extract the whole outer object — so the claim's
step (3) misdescribes the code and the two algorithms return different
strings. -/
theorem extraction_strategy_counterexample :
    extract_json jsonLoads true "xx \x7b\"a\": \x7b\"b\": \x7b\"c\": 1\x7d\x7d\x7d yy" =
        some "\x7b\"b\": \x7b\"c\": 1\x7d\x7d"
    ∧ extractSpecClaim jsonLoads true "xx \x7b\"a\": \x7b\"b\": \x7b\"c\": 1\x7d\x7d\x7d yy" =
        some "\x7b\"a\": \x7b\"b\": \x7b\"c\": 1\x7d\x7d\x7d"
    ∧ ("\x7b\"b\": \x7b\"c\": 1\x7d\x7d" : String) ≠
        "\x7b\"a\": \x7b\"b\": \x7b\"c\": 1\x7d\x7d\x7d" :=
  ⟨rfl, rfl, by decide⟩

/-- C4 amended: extraction tries strategies in a fixed order and returns
the first success — (1) the whole trimmed text as JSON; (2) fenced code
blocks in order of appearance; (3) the non-overlapping regex matches of
brace substrings nested at most one level deep, in order, taken raw;
(4) the brace-matching scan from the first brace of the whole text with
comments stripped and whitespace collapsed, retried; (5) that
comment-stripping retry applied to each of the regex matches of (3); if
none succeeds extraction fails with the `NoJsonFound`-class error — and
empty or whitespace-only text always fails both `can_parse` and
`extract` (given that `json.loads` rejects the empty string). -/
theorem extraction_strategy_order (loads : Loads) (extract_from_markdown : Bool)
    (h0 : loads "" = none) :
    (∀ content, extract_json loads extract_from_markdown content =
        extractStaged loads extract_from_markdown content)
    ∧ (∀ content, pyStrip content = "" →
        extract_json loads extract_from_markdown content = none
        ∧ can_parse loads extract_from_markdown content = false) := by
  constructor
  · intro content
    exact extract_json_staged loads extract_from_markdown content
  · intro content hempty
    have hp : is_pure_json loads "" = false := by
      unfold is_pure_json
      rw [h0]
      rfl
    constructor
    · unfold extract_json
      rw [hempty]
      simp only [hp, Bool.false_eq_true, if_false]
      cases extract_from_markdown <;> rfl
    · unfold can_parse
      rw [hempty]
      simp only [hp, Bool.false_eq_true, if_false]
      cases extract_from_markdown <;> rfl

/-- C4 witness: the amended statement applied with the concrete JSON
parser at a whitespace-only input. -/
theorem extraction_strategy_order_witness :
    extract_json jsonLoads true "  \n " = none
    ∧ can_parse jsonLoads true "  \n " = false :=
  (extraction_strategy_order jsonLoads true rfl).2 "  \n " rfl

end Vis2Attr
